import Mathlib

/-!
Verification of the module conformance comparator of DTSGeneration.

The comparator lives in two source files:
* `src/assets/comparison/compare.ts` — the FIRST-policy engine `isSubModule`
  (per target export, scan the source exports in declaration order and stop at
  the first assignable one) and `main`, the comparison report builder that runs
  the engine in both directions and derives soundness / completeness /
  equivalence scalars.
* `src/assets/typescript_comparison/comparison.ts` — the ALL-policy engine
  `areContainersAssignable` (collect every assignable source export per target
  export, report a matched count `k/n`).

The Type Oracle (`checker.isTypeAssignableTo`) is external to the core; it is
modelled as an abstract boolean function on opaque type representations, and as
an `Except`-valued function where error propagation is at stake.
-/

namespace DTSGen

/-- An exported symbol of a declaration module: a name paired with the opaque
type representation that the Export Extractor produced for it and that only the
Type Oracle inspects.  A module is its ordered list of exports (declaration
order). -/
structure Export (Ty : Type) where
  name : String
  ty : Ty
deriving DecidableEq, Repr

variable {Ty : Type} {ε : Type}

/-- JavaScript object-assignment semantics for `record[key] = value`: if the
key is present, its value is overwritten in place; otherwise the entry is
appended (object insertion order). -/
def recordSet {α : Type} : List (String × α) → String → α → List (String × α)
  | [], k, v => [(k, v)]
  | (k', v') :: rest, k, v =>
      if k' = k then (k, v) :: rest else (k', v') :: recordSet rest k v

/-- Inner loop of `isSubModule` in `compare.ts`: scan `exportsA` in declaration
order and return the name of the first export whose type the oracle deems
assignable to `tB` (the loop breaks at the first hit), or `none`. -/
def findWitness (oracle : Ty → Ty → Bool) : List (Export Ty) → Ty → Option String
  | [], _ => none
  | a :: rest, tB =>
      if oracle a.ty tB then some a.name else findWitness oracle rest tB

/-- Outer loop of `isSubModule` in `compare.ts`: for each target export set
`subs[name] = null`, then overwrite with the first witness (if any) and bump
`num_subs`.  Returns the final `subs` record and `num_subs`. -/
def subLoop (oracle : Ty → Ty → Bool) (exportsA : List (Export Ty)) :
    List (Export Ty) → List (String × Option String) → Nat →
    List (String × Option String) × Nat
  | [], subs, n => (subs, n)
  | b :: rest, subs, n =>
      match findWitness oracle exportsA b.ty with
      | some w =>
          subLoop oracle exportsA rest
            (recordSet (recordSet subs b.name none) b.name (some w)) (n + 1)
      | none => subLoop oracle exportsA rest (recordSet subs b.name none) n

/-- Result record of `isSubModule` in `compare.ts`. -/
structure SubModuleResult where
  isSubModule : Bool
  subTypeFraction : ℚ
  subTypes : List (String × Option String)
deriving DecidableEq, Repr

/-- The FIRST-policy conformance engine `isSubModule(checker, moduleA, moduleB)`
of `compare.ts`: `moduleA` is the source (witness pool), `moduleB` the target. -/
def isSubModule (oracle : Ty → Ty → Bool)
    (moduleA moduleB : List (Export Ty)) : SubModuleResult :=
  let exportsA := moduleA
  let exportsB := moduleB
  let r := subLoop oracle exportsA exportsB [] 0
  { isSubModule := r.2 == exportsB.length
    subTypeFraction :=
      if 0 < exportsB.length then (r.2 : ℚ) / (exportsB.length : ℚ) else 1
    subTypes := r.1 }

/-- The local counter `num_subs` of `isSubModule` in `compare.ts` (the
matchedCount of the FIRST-policy direction). -/
def num_subs (oracle : Ty → Ty → Bool)
    (moduleA moduleB : List (Export Ty)) : Nat :=
  (subLoop oracle moduleA moduleB [] 0).2

/-- Inner loop of `areContainersAssignable` in `comparison.ts`: push the name
of every source export assignable to `tB`, in source declaration order. -/
def collectWitnesses (oracle : Ty → Ty → Bool) : List (Export Ty) → Ty → List String
  | [], _ => []
  | a :: rest, tB =>
      if oracle a.ty tB then a.name :: collectWitnesses oracle rest tB
      else collectWitnesses oracle rest tB

/-- Outer loop of `areContainersAssignable` in `comparison.ts`: record, per
target export name, the full witness list.  (The local `allMatched` flag is
computed by the source but not part of the returned value.) -/
def matchesLoop (oracle : Ty → Ty → Bool) (exportsA : List (Export Ty)) :
    List (Export Ty) → List (String × List String) → List (String × List String)
  | [], m => m
  | b :: rest, m =>
      matchesLoop oracle exportsA rest
        (recordSet m b.name (collectWitnesses oracle exportsA b.ty))

/-- Result of `areContainersAssignable` in `comparison.ts`.  The source returns
the count as the string `"${k}/${n}"`; `matchedCount` and `total` are its
numerator `Object.values(matches).filter(v => v.length > 0).length` and
denominator `exportsB.length`, and `matched` is the string itself.  The field
`matchMap` is the `matches` record of the source (`matches` is reserved in
Lean). -/
structure ContainersResult where
  matchedCount : Nat
  total : Nat
  matched : String
  matchMap : List (String × List String)
deriving DecidableEq, Repr

/-- The ALL-policy conformance engine `areContainersAssignable(checker,
moduleA, moduleB)` of `comparison.ts`: `moduleA` is the source (witness pool),
`moduleB` the target. -/
def areContainersAssignable (oracle : Ty → Ty → Bool)
    (moduleA moduleB : List (Export Ty)) : ContainersResult :=
  let exportsA := moduleA
  let exportsB := moduleB
  let m := matchesLoop oracle exportsA exportsB []
  let k := (m.filter (fun p => decide (0 < p.2.length))).length
  { matchedCount := k
    total := exportsB.length
    matched := toString k ++ "/" ++ toString exportsB.length
    matchMap := m }

/-- Modelled from the spec: the `DirectionalRelation` scalars `fraction` and
`isSubmodule` for the ALL-policy engine.  `comparison.ts` reports only the
matched-count string `k/n`; the spec's §3 defines
`fraction = total==0 ? 1.0 : matchedCount/total` and
`isSubmodule = matchedCount == total` on top of it. -/
def ContainersResult.fraction (r : ContainersResult) : ℚ :=
  if 0 < r.total then (r.matchedCount : ℚ) / (r.total : ℚ) else 1

/-- Modelled from the spec: the `isSubmodule` boolean the spec derives from the
ALL-policy matched count (see `ContainersResult.fraction`). -/
def ContainersResult.isSubmodule (r : ContainersResult) : Bool :=
  r.matchedCount == r.total

/-- The persisted comparison document built by `main` in `compare.ts`
(module A plays the `predicted` role, module B the `expected` role). -/
structure ComparisonReport where
  isSound : Bool
  soundness : ℚ
  isComplete : Bool
  completeness : ℚ
  isEquivalent : Bool
  equivalence : ℚ
  predicted_to_expected_sub : List (String × Option String)
  expected_to_predicted_sub : List (String × Option String)
deriving DecidableEq, Repr

/-- The report construction of `main` in `compare.ts`:
`resultA = isSubModule(checker, A, B)`, `resultB = isSubModule(checker, B, A)`,
then the derived scalars exactly as written in the source. -/
def buildReport (oracle : Ty → Ty → Bool)
    (moduleA moduleB : List (Export Ty)) : ComparisonReport :=
  let resultA := isSubModule oracle moduleA moduleB
  let resultB := isSubModule oracle moduleB moduleA
  { isSound := resultB.isSubModule
    soundness := resultB.subTypeFraction
    isComplete := resultA.isSubModule
    completeness := resultA.subTypeFraction
    isEquivalent := resultA.isSubModule && resultB.isSubModule
    equivalence := resultA.subTypeFraction * resultB.subTypeFraction
    predicted_to_expected_sub := resultB.subTypes
    expected_to_predicted_sub := resultA.subTypes }

/-- Fallible variant of `findWitness`: the Type Oracle may raise
(`checker.isTypeAssignableTo` throwing inside the inner loop of
`isSubModule`); an exception aborts the scan and propagates. -/
def findWitnessE (oracleE : Ty → Ty → Except ε Bool) :
    List (Export Ty) → Ty → Except ε (Option String)
  | [], _ => Except.ok none
  | a :: rest, tB =>
      match oracleE a.ty tB with
      | Except.error e => Except.error e
      | Except.ok b =>
          if b then Except.ok (some a.name) else findWitnessE oracleE rest tB

/-- Fallible variant of `subLoop`: an oracle exception inside any iteration
propagates out of the loop. -/
def subLoopE (oracleE : Ty → Ty → Except ε Bool) (exportsA : List (Export Ty)) :
    List (Export Ty) → List (String × Option String) → Nat →
    Except ε (List (String × Option String) × Nat)
  | [], subs, n => Except.ok (subs, n)
  | b :: rest, subs, n =>
      match findWitnessE oracleE exportsA b.ty with
      | Except.error e => Except.error e
      | Except.ok (some s) =>
          subLoopE oracleE exportsA rest
            (recordSet (recordSet subs b.name none) b.name (some s)) (n + 1)
      | Except.ok none =>
          subLoopE oracleE exportsA rest (recordSet subs b.name none) n

/-- Fallible variant of `isSubModule`. -/
def isSubModuleE (oracleE : Ty → Ty → Except ε Bool)
    (moduleA moduleB : List (Export Ty)) : Except ε SubModuleResult :=
  match subLoopE oracleE moduleA moduleB [] 0 with
  | Except.error e => Except.error e
  | Except.ok r =>
      Except.ok
        { isSubModule := r.2 == moduleB.length
          subTypeFraction :=
            if 0 < moduleB.length then (r.2 : ℚ) / (moduleB.length : ℚ) else 1
          subTypes := r.1 }

/-- The comparison run of `main` in `compare.ts` over a fallible oracle: both
directional computations run to completion before the report value exists, so
an oracle exception in either direction yields `Except.error` and no report
(the `fs.writeFileSync` of the source is never reached). -/
def mainE (oracleE : Ty → Ty → Except ε Bool)
    (moduleA moduleB : List (Export Ty)) : Except ε ComparisonReport :=
  match isSubModuleE oracleE moduleA moduleB with
  | Except.error e => Except.error e
  | Except.ok resultA =>
      match isSubModuleE oracleE moduleB moduleA with
      | Except.error e => Except.error e
      | Except.ok resultB =>
          Except.ok
            { isSound := resultB.isSubModule
              soundness := resultB.subTypeFraction
              isComplete := resultA.isSubModule
              completeness := resultA.subTypeFraction
              isEquivalent := resultA.isSubModule && resultB.isSubModule
              equivalence := resultA.subTypeFraction * resultB.subTypeFraction
              predicted_to_expected_sub := resultB.subTypes
              expected_to_predicted_sub := resultA.subTypes }

/-- The document `main` persists: `some` of the complete report on success,
`none` when the run aborted with an exception. -/
def writtenReport (oracleE : Ty → Ty → Except ε Bool)
    (moduleA moduleB : List (Export Ty)) : Option ComparisonReport :=
  (mainE oracleE moduleA moduleB).toOption

/-! ### Helper lemmas about the record and the loops -/

/-- Setting a key that is not yet present appends the entry. -/
theorem recordSet_of_not_mem {α : Type} (k : String) (v : α) :
    ∀ r : List (String × α), k ∉ r.map Prod.fst → recordSet r k v = r ++ [(k, v)] := by
  intro r
  induction r with
  | nil => intro _; rfl
  | cons p rest ih =>
      intro h
      simp only [List.map_cons, List.mem_cons] at h
      push_neg at h
      simp [recordSet, Ne.symm h.1, ih h.2]

/-- Setting the same key twice keeps only the last value. -/
theorem recordSet_recordSet {α : Type} (k : String) (v w : α) :
    ∀ r : List (String × α), recordSet (recordSet r k v) k w = recordSet r k w := by
  intro r
  induction r with
  | nil => simp [recordSet]
  | cons p rest ih =>
      by_cases h : p.1 = k
      · simp [recordSet, h]
      · simp [recordSet, h, ih]

/-- A scan of the source list yields `some` exactly when some source export is
assignable to the target type. -/
theorem findWitness_isSome_iff (oracle : Ty → Ty → Bool) (t : Ty) :
    ∀ A : List (Export Ty),
      (findWitness oracle A t).isSome = true ↔ ∃ a ∈ A, oracle a.ty t = true := by
  intro A
  induction A with
  | nil => simp [findWitness]
  | cons a rest ih =>
      by_cases h : oracle a.ty t
      · simp [findWitness, h]
      · simp only [Bool.not_eq_true] at h
        simp [findWitness, h, ih]

/-- The FIRST-policy inner loop returns exactly the name of the first
assignable source export in declaration order. -/
theorem findWitness_eq_find (oracle : Ty → Ty → Bool) (t : Ty) :
    ∀ A : List (Export Ty),
      findWitness oracle A t = (A.find? (fun a => oracle a.ty t)).map Export.name := by
  intro A
  induction A with
  | nil => rfl
  | cons a rest ih =>
      by_cases h : oracle a.ty t
      · simp [findWitness, h, List.find?_cons_of_pos]
      · simp only [Bool.not_eq_true] at h
        simp [findWitness, h, ih, List.find?_cons_of_neg]

/-- The counter of the FIRST-policy outer loop counts the target exports for
which a witness exists, on top of its initial value. -/
theorem subLoop_snd (oracle : Ty → Ty → Bool) (exportsA : List (Export Ty)) :
    ∀ (bs : List (Export Ty)) (subs : List (String × Option String)) (n : Nat),
      (subLoop oracle exportsA bs subs n).2 =
        n + (bs.filter (fun b => (findWitness oracle exportsA b.ty).isSome)).length := by
  intro bs
  induction bs with
  | nil => intro subs n; simp [subLoop]
  | cons b rest ih =>
      intro subs n
      cases h : findWitness oracle exportsA b.ty with
      | none => simp [subLoop, h, ih, List.filter_cons]
      | some w =>
          simp only [subLoop, h, ih, List.filter_cons, Option.isSome_some,
            if_pos, List.length_cons]
          omega

/-- When the target export names are distinct and none of them is already a key
of the accumulator, the FIRST-policy outer loop appends, per target export in
declaration order, the entry carrying its first witness (or `none`). -/
theorem subLoop_fst (oracle : Ty → Ty → Bool) (exportsA : List (Export Ty)) :
    ∀ (bs : List (Export Ty)) (subs : List (String × Option String)) (n : Nat),
      (bs.map Export.name).Nodup →
      (∀ b ∈ bs, b.name ∉ subs.map Prod.fst) →
      (subLoop oracle exportsA bs subs n).1 =
        subs ++ bs.map (fun b => (b.name, findWitness oracle exportsA b.ty)) := by
  intro bs
  induction bs with
  | nil => intro subs n _ _; simp [subLoop]
  | cons b rest ih =>
      intro subs n hnd hdisj
      simp only [List.map_cons, List.nodup_cons] at hnd
      have hbnotin : b.name ∉ subs.map Prod.fst := hdisj b (by simp)
      have hset : ∀ v : Option String,
          recordSet subs b.name v = subs ++ [(b.name, v)] :=
        fun v => recordSet_of_not_mem b.name v subs hbnotin
      have hdisj' : ∀ v : Option String, ∀ x ∈ rest,
          x.name ∉ (subs ++ [(b.name, v)]).map Prod.fst := by
        intro v x hx
        simp only [List.map_append, List.mem_append, List.map_cons,
          List.map_nil, List.mem_singleton]
        push_neg
        refine ⟨hdisj x (by simp [hx]), ?_⟩
        intro heq
        exact hnd.1 (heq ▸ List.mem_map_of_mem Export.name hx)
      cases h : findWitness oracle exportsA b.ty with
      | none =>
          simp only [subLoop, h]
          rw [hset none, ih (subs ++ [(b.name, none)]) n hnd.2 (hdisj' none)]
          simp [h]
      | some w =>
          simp only [subLoop, h, recordSet_recordSet]
          rw [hset (some w),
            ih (subs ++ [(b.name, some w)]) (n + 1) hnd.2 (hdisj' (some w))]
          simp [h]

/-- The ALL-policy inner loop produces an empty witness list exactly when the
FIRST-policy inner loop finds no witness. -/
theorem collectWitnesses_eq_nil_iff (oracle : Ty → Ty → Bool) (t : Ty) :
    ∀ A : List (Export Ty),
      collectWitnesses oracle A t = [] ↔ findWitness oracle A t = none := by
  intro A
  induction A with
  | nil => simp [collectWitnesses, findWitness]
  | cons a rest ih =>
      by_cases h : oracle a.ty t
      · simp [collectWitnesses, findWitness, h]
      · simp only [Bool.not_eq_true] at h
        simp [collectWitnesses, findWitness, h, ih]

/-- Witness collection distributes over appending source exports. -/
theorem collectWitnesses_append (oracle : Ty → Ty → Bool) (t : Ty) :
    ∀ A es : List (Export Ty),
      collectWitnesses oracle (A ++ es) t =
        collectWitnesses oracle A t ++ collectWitnesses oracle es t := by
  intro A es
  induction A with
  | nil => simp [collectWitnesses]
  | cons a rest ih =>
      by_cases h : oracle a.ty t
      · simp [collectWitnesses, h, ih]
      · simp only [Bool.not_eq_true] at h
        simp [collectWitnesses, h, ih]

/-- When the target export names are distinct and absent from the accumulator,
the ALL-policy outer loop appends, per target export in declaration order, the
entry carrying its full witness list. -/
theorem matchesLoop_eq (oracle : Ty → Ty → Bool) (exportsA : List (Export Ty)) :
    ∀ (bs : List (Export Ty)) (m : List (String × List String)),
      (bs.map Export.name).Nodup →
      (∀ b ∈ bs, b.name ∉ m.map Prod.fst) →
      matchesLoop oracle exportsA bs m =
        m ++ bs.map (fun b => (b.name, collectWitnesses oracle exportsA b.ty)) := by
  intro bs
  induction bs with
  | nil => intro m _ _; simp [matchesLoop]
  | cons b rest ih =>
      intro m hnd hdisj
      simp only [List.map_cons, List.nodup_cons] at hnd
      have hbnotin : b.name ∉ m.map Prod.fst := hdisj b (by simp)
      rw [matchesLoop,
        recordSet_of_not_mem b.name (collectWitnesses oracle exportsA b.ty) m hbnotin,
        ih _ hnd.2]
      · simp
      · intro x hx
        simp only [List.map_append, List.mem_append, List.map_cons,
          List.map_nil, List.mem_singleton]
        push_neg
        refine ⟨hdisj x (by simp [hx]), ?_⟩
        intro heq
        exact hnd.1 (heq ▸ List.mem_map_of_mem Export.name hx)

/-- Counting helper: a filter keeps every element exactly when its length is
the whole list's length. -/
theorem length_filter_eq_iff {α : Type} (p : α → Bool) :
    ∀ l : List α, ((l.filter p).length = l.length) ↔ ∀ x ∈ l, p x = true := by
  intro l
  induction l with
  | nil => simp
  | cons x xs ih =>
      by_cases h : p x = true
      · simp [List.filter_cons, h, ih]
      · simp only [List.filter_cons, h, Bool.false_eq_true, if_false,
          List.length_cons, List.mem_cons]
        constructor
        · intro hlen
          exfalso
          have hle := List.length_filter_le p xs
          omega
        · intro hall
          exact absurd (hall x (Or.inl rfl)) h

/-- Counting helper: a pointwise-weaker filter keeps no more elements. -/
theorem length_filter_le_of_imp {α : Type} (p q : α → Bool)
    (h : ∀ x, p x = true → q x = true) :
    ∀ l : List α, (l.filter p).length ≤ (l.filter q).length := by
  intro l
  induction l with
  | nil => simp
  | cons x xs ih =>
      by_cases hp : p x = true
      · simp [List.filter_cons, hp, h x hp]
        omega
      · by_cases hq : q x = true <;>
          simp [List.filter_cons, hp, hq] <;> omega

/-- Appending source exports preserves an already-found first witness. -/
theorem findWitness_append_of_isSome (oracle : Ty → Ty → Bool) (t : Ty)
    (es : List (Export Ty)) :
    ∀ A : List (Export Ty), (findWitness oracle A t).isSome = true →
      (findWitness oracle (A ++ es) t).isSome = true := by
  intro A
  induction A with
  | nil => simp [findWitness]
  | cons a rest ih =>
      by_cases h : oracle a.ty t
      · simp [findWitness, h]
      · simp only [Bool.not_eq_true] at h
        simpa [findWitness, h] using ih

/-- Pointwise relation between two witness records built over a smaller and a
larger source: same keys in the same order, and any entry empty for the larger
source is empty for the smaller one. -/
def relKV (p q : String × List String) : Prop :=
  p.1 = q.1 ∧ (q.2 = [] → p.2 = [])

/-- Setting the same key on both records preserves the pointwise relation. -/
theorem forall2_recordSet (k : String) (v₁ v₂ : List String)
    (hv : v₂ = [] → v₁ = []) :
    ∀ r₁ r₂ : List (String × List String), List.Forall₂ relKV r₁ r₂ →
      List.Forall₂ relKV (recordSet r₁ k v₁) (recordSet r₂ k v₂) := by
  intro r₁ r₂ h
  induction h with
  | nil => exact List.Forall₂.cons ⟨rfl, hv⟩ List.Forall₂.nil
  | @cons p q t₁ t₂ hpq hrest ih =>
      obtain ⟨pk, pv⟩ := p
      obtain ⟨qk, qv⟩ := q
      obtain ⟨hk, hempty⟩ := hpq
      have hk' : pk = qk := hk
      have hempty' : qv = [] → pv = [] := hempty
      subst hk'
      by_cases hpk : pk = k
      · simp only [recordSet, if_pos hpk]
        exact List.Forall₂.cons ⟨rfl, hv⟩ hrest
      · simp only [recordSet, if_neg hpk]
        exact List.Forall₂.cons ⟨rfl, hempty'⟩ ih

/-- Running the ALL-policy outer loop over the original source and over the
source extended with one export preserves the pointwise relation. -/
theorem forall2_matchesLoop (oracle : Ty → Ty → Bool)
    (exportsA : List (Export Ty)) (e : Export Ty) :
    ∀ (bs : List (Export Ty)) (m₁ m₂ : List (String × List String)),
      List.Forall₂ relKV m₁ m₂ →
      List.Forall₂ relKV (matchesLoop oracle exportsA bs m₁)
        (matchesLoop oracle (exportsA ++ [e]) bs m₂) := by
  intro bs
  induction bs with
  | nil => intro m₁ m₂ h; simpa [matchesLoop] using h
  | cons b rest ih =>
      intro m₁ m₂ h
      simp only [matchesLoop]
      apply ih
      apply forall2_recordSet
      · intro hnil
        rw [collectWitnesses_append] at hnil
        exact (List.append_eq_nil.mp hnil).1
      · exact h

/-- Related records have at least as many non-empty entries on the larger
side. -/
theorem forall2_count_le :
    ∀ r₁ r₂ : List (String × List String), List.Forall₂ relKV r₁ r₂ →
      (r₁.filter (fun p => decide (0 < p.2.length))).length ≤
        (r₂.filter (fun p => decide (0 < p.2.length))).length := by
  intro r₁ r₂ h
  induction h with
  | nil => simp
  | @cons p q r₁ r₂ hpq hrest ih =>
      obtain ⟨_, hempty⟩ := hpq
      by_cases hq : q.2 = []
      · have hp : p.2 = [] := hempty hq
        simp [List.filter_cons, hp, hq, ih]
      · have hqlen : 0 < q.2.length := List.length_pos.mpr hq
        by_cases hp : 0 < p.2.length <;>
          simp [List.filter_cons, hp, hqlen] <;> omega

/-! ### Error propagation lemmas for the fallible oracle -/

/-- An exception of the fallible inner scan is an exception of an actual
oracle query against a source export. -/
theorem findWitnessE_error (oracleE : Ty → Ty → Except ε Bool) (t : Ty) (e : ε) :
    ∀ A : List (Export Ty), findWitnessE oracleE A t = Except.error e →
      ∃ a ∈ A, oracleE a.ty t = Except.error e := by
  intro A
  induction A with
  | nil => intro h; exact absurd h (by simp [findWitnessE])
  | cons a rest ih =>
      intro h
      cases hq : oracleE a.ty t with
      | error e' =>
          simp only [findWitnessE, hq] at h
          have he : e' = e := by injection h
          exact ⟨a, by simp, by rw [hq, he]⟩
      | ok b =>
          cases b with
          | true => simp [findWitnessE, hq] at h
          | false =>
              simp only [findWitnessE, hq, Bool.false_eq_true, if_false] at h
              obtain ⟨a', ha', hq'⟩ := ih h
              exact ⟨a', by simp [ha'], hq'⟩

/-- An exception of the fallible outer loop comes from an exception of the
inner scan at some target export. -/
theorem subLoopE_error (oracleE : Ty → Ty → Except ε Bool)
    (exportsA : List (Export Ty)) (e : ε) :
    ∀ (bs : List (Export Ty)) (subs : List (String × Option String)) (n : Nat),
      subLoopE oracleE exportsA bs subs n = Except.error e →
      ∃ b ∈ bs, findWitnessE oracleE exportsA b.ty = Except.error e := by
  intro bs
  induction bs with
  | nil => intro subs n h; exact absurd h (by simp [subLoopE])
  | cons b rest ih =>
      intro subs n h
      cases hw : findWitnessE oracleE exportsA b.ty with
      | error e' =>
          simp only [subLoopE, hw] at h
          have he : e' = e := by injection h
          exact ⟨b, by simp, by rw [hw, he]⟩
      | ok w =>
          simp only [subLoopE, hw] at h
          cases w with
          | some s =>
              obtain ⟨b', hb', hw'⟩ := ih _ _ h
              exact ⟨b', by simp [hb'], hw'⟩
          | none =>
              obtain ⟨b', hb', hw'⟩ := ih _ _ h
              exact ⟨b', by simp [hb'], hw'⟩

/-- An exception of a fallible directional computation is an exception of an
actual oracle query `assignable(a.type, b.type)` with `a` drawn from the source
module and `b` from the target module. -/
theorem isSubModuleE_error (oracleE : Ty → Ty → Except ε Bool)
    (moduleA moduleB : List (Export Ty)) (e : ε) :
    isSubModuleE oracleE moduleA moduleB = Except.error e →
    ∃ a ∈ moduleA, ∃ b ∈ moduleB, oracleE a.ty b.ty = Except.error e := by
  intro h
  cases hl : subLoopE oracleE moduleA moduleB [] 0 with
  | error e' =>
      simp only [isSubModuleE, hl] at h
      have he : e' = e := by injection h
      obtain ⟨b, hb, hw⟩ := subLoopE_error oracleE moduleA e moduleB [] 0 (by rw [hl, he])
      obtain ⟨a, ha, hq⟩ := findWitnessE_error oracleE b.ty e moduleA hw
      exact ⟨a, ha, b, hb, hq⟩
  | ok r => simp [isSubModuleE, hl] at h

/-- A fallible oracle that agrees with a pure one makes the fallible inner
scan agree with the pure inner scan. -/
theorem findWitnessE_ok (oracleE : Ty → Ty → Except ε Bool)
    (oracle : Ty → Ty → Bool) (hag : ∀ t u, oracleE t u = Except.ok (oracle t u))
    (t : Ty) :
    ∀ A : List (Export Ty),
      findWitnessE oracleE A t = Except.ok (findWitness oracle A t) := by
  intro A
  induction A with
  | nil => rfl
  | cons a rest ih =>
      by_cases h : oracle a.ty t
      · simp [findWitnessE, findWitness, hag, h]
      · simp only [Bool.not_eq_true] at h
        simp [findWitnessE, findWitness, hag, h, ih]

/-- A fallible oracle that agrees with a pure one makes the fallible outer
loop agree with the pure outer loop. -/
theorem subLoopE_ok (oracleE : Ty → Ty → Except ε Bool)
    (oracle : Ty → Ty → Bool) (hag : ∀ t u, oracleE t u = Except.ok (oracle t u))
    (exportsA : List (Export Ty)) :
    ∀ (bs : List (Export Ty)) (subs : List (String × Option String)) (n : Nat),
      subLoopE oracleE exportsA bs subs n =
        Except.ok (subLoop oracle exportsA bs subs n) := by
  intro bs
  induction bs with
  | nil => intro subs n; rfl
  | cons b rest ih =>
      intro subs n
      cases h : findWitness oracle exportsA b.ty with
      | some w =>
          simp only [subLoopE, subLoop, findWitnessE_ok oracleE oracle hag, h]
          exact ih _ _
      | none =>
          simp only [subLoopE, subLoop, findWitnessE_ok oracleE oracle hag, h]
          exact ih _ _

/-- A fallible oracle that agrees with a pure one completes the whole run and
produces exactly the report of the pure builder. -/
theorem mainE_ok (oracleE : Ty → Ty → Except ε Bool)
    (oracle : Ty → Ty → Bool) (hag : ∀ t u, oracleE t u = Except.ok (oracle t u))
    (moduleA moduleB : List (Export Ty)) :
    mainE oracleE moduleA moduleB = Except.ok (buildReport oracle moduleA moduleB) := by
  simp only [mainE, isSubModuleE, subLoopE_ok oracleE oracle hag]
  rfl

/-- The ALL-policy inner loop finds at least one witness exactly when the
FIRST-policy inner loop finds one. -/
theorem collect_pos_eq_isSome (oracle : Ty → Ty → Bool) (t : Ty)
    (A : List (Export Ty)) :
    decide (0 < (collectWitnesses oracle A t).length) =
      (findWitness oracle A t).isSome := by
  cases hfw : findWitness oracle A t with
  | none =>
      have hnil : collectWitnesses oracle A t = [] :=
        (collectWitnesses_eq_nil_iff oracle t A).mpr hfw
      simp [hnil]
  | some w =>
      have hne : collectWitnesses oracle A t ≠ [] := by
        intro hnil
        have h0 := (collectWitnesses_eq_nil_iff oracle t A).mp hnil
        rw [h0] at hfw
        exact Option.noConfusion hfw
      simp [List.length_pos.mpr hne]

/-- The FIRST-policy fraction written by the source, exposed through
`num_subs`. -/
theorem subTypeFraction_eq (oracle : Ty → Ty → Bool)
    (source target : List (Export Ty)) :
    (isSubModule oracle source target).subTypeFraction =
      if 0 < target.length
      then ((num_subs oracle source target : ℚ) / (target.length : ℚ)) else 1 := rfl

/-- The FIRST-policy matched count never exceeds the number of target
exports. -/
theorem num_subs_le_length (oracle : Ty → Ty → Bool)
    (source target : List (Export Ty)) :
    num_subs oracle source target ≤ target.length := by
  simp only [num_subs]
  rw [subLoop_snd]
  simpa using List.length_filter_le _ target

/-! ### Claims -/

/-- C1: for every pair of modules (A, B) and every Oracle, the Comparison
Report Builder derives its scalars exactly as: soundness from relate(B, A)
(isSound and the soundness fraction), completeness from relate(A, B),
equivalence as the conjunction of the two isSubmodule booleans, and the
equivalence score as the product of the two fractions. -/
theorem reportBuilderScalars (oracle : Ty → Ty → Bool)
    (A B : List (Export Ty)) :
    (buildReport oracle A B).isSound = (isSubModule oracle B A).isSubModule ∧
    (buildReport oracle A B).soundness = (isSubModule oracle B A).subTypeFraction ∧
    (buildReport oracle A B).isComplete = (isSubModule oracle A B).isSubModule ∧
    (buildReport oracle A B).completeness = (isSubModule oracle A B).subTypeFraction ∧
    (buildReport oracle A B).isEquivalent =
      ((isSubModule oracle A B).isSubModule && (isSubModule oracle B A).isSubModule) ∧
    (buildReport oracle A B).equivalence =
      (isSubModule oracle A B).subTypeFraction * (isSubModule oracle B A).subTypeFraction :=
  ⟨rfl, rfl, rfl, rfl, rfl, rfl⟩

/-- C2: under the FIRST policy, the recorded witness for each target export is
the name of the first source export in source declaration order whose type is
assignable to it, or null when no source export is assignable. -/
theorem firstPolicyWitness (oracle : Ty → Ty → Bool)
    (source target : List (Export Ty))
    (hnd : (target.map Export.name).Nodup) :
    (isSubModule oracle source target).subTypes =
      target.map (fun b =>
        (b.name, (source.find? (fun a => oracle a.ty b.ty)).map Export.name)) := by
  show (subLoop oracle source target [] 0).1 = _
  rw [subLoop_fst oracle source target [] 0 hnd (by simp)]
  simp [findWitness_eq_find]

/-- Witness for C2 at the spec's scenario: sources `f` and `h` are both
assignable to target `f`; the first-declared `f` is recorded, not `h`. -/
theorem firstPolicyWitness_concrete :
    (isSubModule (fun a b : Nat => a == b)
        [Export.mk "f" 0, Export.mk "h" 0] [Export.mk "f" 0]).subTypes =
      [("f", some "f")] := by
  rw [firstPolicyWitness (fun a b : Nat => a == b)
    [Export.mk "f" 0, Export.mk "h" 0] [Export.mk "f" 0] (by decide)]
  rfl

/-- C3 counterexample: at A = {} and B = {x}, relate(B, A) targets the empty
export list of A, so its isSubmodule is vacuously true, while the claim's
condition — every export of B realizable by some export of A — is false. -/
theorem soundnessDirectionCounterexample :
    ¬ (((isSubModule (fun _ _ : Nat => false)
          [Export.mk "x" 0] ([] : List (Export Nat))).isSubModule = true) ↔
        (∀ b ∈ [Export.mk "x" (0 : Nat)], ∃ a ∈ ([] : List (Export Nat)),
          (fun _ _ : Nat => false) a.ty b.ty = true)) := by
  decide

/-- C3 amended: relate(B, A).isSubmodule (the soundness boolean) holds iff
every export that A promises is realizable by some export of B, i.e. for every
export a of A there exists an export b of B with Oracle.assignable(b.type,
a.type). -/
theorem soundnessDirectionAmended (oracle : Ty → Ty → Bool)
    (A B : List (Export Ty)) :
    (isSubModule oracle B A).isSubModule = true ↔
      ∀ a ∈ A, ∃ b ∈ B, oracle b.ty a.ty = true := by
  show ((subLoop oracle B A [] 0).2 == A.length) = true ↔ _
  rw [beq_iff_eq, subLoop_snd]
  simp only [Nat.zero_add]
  rw [length_filter_eq_iff]
  simp only [findWitness_isSome_iff]

/-- C4: with unique target export names, the FIRST-policy and ALL-policy
engines report the same matchedCount, hence the same fraction and the same
isSubmodule. -/
theorem policyAgreement (oracle : Ty → Ty → Bool)
    (source target : List (Export Ty))
    (hnd : (target.map Export.name).Nodup) :
    num_subs oracle source target =
      (areContainersAssignable oracle source target).matchedCount ∧
    (isSubModule oracle source target).subTypeFraction =
      (areContainersAssignable oracle source target).fraction ∧
    (isSubModule oracle source target).isSubModule =
      (areContainersAssignable oracle source target).isSubmodule := by
  have hcount : (areContainersAssignable oracle source target).matchedCount =
      num_subs oracle source target := by
    show ((matchesLoop oracle source target []).filter
        (fun p => decide (0 < p.2.length))).length = (subLoop oracle source target [] 0).2
    rw [matchesLoop_eq oracle source target [] hnd (by simp), subLoop_snd]
    simp only [List.nil_append, Nat.zero_add, List.filter_map, List.length_map]
    congr 1
    apply List.filter_congr
    intro b _
    simp only [Function.comp_apply]
    exact collect_pos_eq_isSome oracle b.ty source
  refine ⟨hcount.symm, ?_, ?_⟩
  · simp only [ContainersResult.fraction, hcount]
    rfl
  · simp only [ContainersResult.isSubmodule, hcount]
    rfl

/-- Witness for C4 at a concrete input: source {f}, target {f, g}, oracle
matching equal type representations only. -/
theorem policyAgreement_concrete :
    num_subs (fun a b : Nat => a == b)
        [Export.mk "f" 0] [Export.mk "f" 0, Export.mk "g" 1] =
      (areContainersAssignable (fun a b : Nat => a == b)
        [Export.mk "f" 0] [Export.mk "f" 0, Export.mk "g" 1]).matchedCount ∧
    (isSubModule (fun a b : Nat => a == b)
        [Export.mk "f" 0] [Export.mk "f" 0, Export.mk "g" 1]).subTypeFraction =
      (areContainersAssignable (fun a b : Nat => a == b)
        [Export.mk "f" 0] [Export.mk "f" 0, Export.mk "g" 1]).fraction ∧
    (isSubModule (fun a b : Nat => a == b)
        [Export.mk "f" 0] [Export.mk "f" 0, Export.mk "g" 1]).isSubModule =
      (areContainersAssignable (fun a b : Nat => a == b)
        [Export.mk "f" 0] [Export.mk "f" 0, Export.mk "g" 1]).isSubmodule :=
  policyAgreement (fun a b : Nat => a == b)
    [Export.mk "f" 0] [Export.mk "f" 0, Export.mk "g" 1] (by decide)

/-- C5: a target module with zero exports yields total 0, fraction 1 and
isSubmodule true, for any source module and oracle, under either policy. -/
theorem vacuousEmptyTarget (oracle : Ty → Ty → Bool) (A : List (Export Ty)) :
    (isSubModule oracle A []).isSubModule = true ∧
    (isSubModule oracle A []).subTypeFraction = 1 ∧
    (areContainersAssignable oracle A []).total = 0 ∧
    (areContainersAssignable oracle A []).matchedCount = 0 ∧
    (areContainersAssignable oracle A []).fraction = 1 ∧
    (areContainersAssignable oracle A []).isSubmodule = true :=
  ⟨rfl, rfl, rfl, rfl, rfl, rfl⟩

/-- C6: appending one additional export to the source never decreases the
matched count, for a fixed target, under either engine. -/
theorem matchedCountMonotone (oracle : Ty → Ty → Bool)
    (S : List (Export Ty)) (e : Export Ty) (target : List (Export Ty)) :
    num_subs oracle S target ≤ num_subs oracle (S ++ [e]) target ∧
    (areContainersAssignable oracle S target).matchedCount ≤
      (areContainersAssignable oracle (S ++ [e]) target).matchedCount := by
  constructor
  · show (subLoop oracle S target [] 0).2 ≤ (subLoop oracle (S ++ [e]) target [] 0).2
    rw [subLoop_snd, subLoop_snd]
    simp only [Nat.zero_add]
    exact length_filter_le_of_imp _ _
      (fun b => findWitness_append_of_isSome oracle b.ty [e] S) target
  · show ((matchesLoop oracle S target []).filter
        (fun p => decide (0 < p.2.length))).length ≤
      ((matchesLoop oracle (S ++ [e]) target []).filter
        (fun p => decide (0 < p.2.length))).length
    exact forall2_count_le _ _
      (forall2_matchesLoop oracle S e target [] [] List.Forall₂.nil)

/-- C7: with a reflexive oracle, relating a module (with unique export names)
to itself under the ALL policy gives isSubmodule true and fraction 1: every
export has at least one witness, itself. -/
theorem reflexiveSelfRelate (oracle : Ty → Ty → Bool)
    (M : List (Export Ty)) (href : ∀ t, oracle t t = true)
    (hnd : (M.map Export.name).Nodup) :
    (areContainersAssignable oracle M M).isSubmodule = true ∧
    (areContainersAssignable oracle M M).fraction = 1 := by
  have hcount : (areContainersAssignable oracle M M).matchedCount = M.length := by
    show ((matchesLoop oracle M M []).filter
        (fun p => decide (0 < p.2.length))).length = M.length
    rw [matchesLoop_eq oracle M M [] hnd (by simp)]
    simp only [List.nil_append, List.filter_map, List.length_map]
    rw [length_filter_eq_iff]
    intro b hb
    simp only [Function.comp_apply]
    rw [collect_pos_eq_isSome, findWitness_isSome_iff]
    exact ⟨b, hb, href b.ty⟩
  have htot : (areContainersAssignable oracle M M).total = M.length := rfl
  constructor
  · simp [ContainersResult.isSubmodule, hcount, htot]
  · simp only [ContainersResult.fraction, hcount, htot]
    by_cases hpos : 0 < M.length
    · rw [if_pos hpos]
      exact div_self (by exact_mod_cast Nat.pos_iff_ne_zero.mp hpos)
    · rw [if_neg hpos]

/-- Witness for C7 at a concrete module of two exports and the equality
oracle (reflexive on type identifiers). -/
theorem reflexiveSelfRelate_concrete :
    (areContainersAssignable (fun a b : Nat => a == b)
        [Export.mk "x" 0, Export.mk "y" 1]
        [Export.mk "x" 0, Export.mk "y" 1]).isSubmodule = true ∧
    (areContainersAssignable (fun a b : Nat => a == b)
        [Export.mk "x" 0, Export.mk "y" 1]
        [Export.mk "x" 0, Export.mk "y" 1]).fraction = 1 :=
  reflexiveSelfRelate (fun a b : Nat => a == b)
    [Export.mk "x" 0, Export.mk "y" 1] (fun t => by simp) (by decide)

/-- C8: the comparison run is all-or-nothing with respect to Oracle failures:
if the run aborts with an exception, no report document is written and the
exception is that of an actual assignability query between exports of the two
modules; if the oracle answers every query, the run writes exactly the
complete report of the pure builder. -/
theorem oracleFailureAllOrNothing (oracleE : Ty → Ty → Except ε Bool)
    (A B : List (Export Ty)) :
    (∀ e, mainE oracleE A B = Except.error e →
        writtenReport oracleE A B = none ∧
        ∃ s t, ((s ∈ A ∧ t ∈ B) ∨ (s ∈ B ∧ t ∈ A)) ∧
          oracleE s.ty t.ty = Except.error e) ∧
    (∀ oracle : Ty → Ty → Bool, (∀ t u, oracleE t u = Except.ok (oracle t u)) →
        writtenReport oracleE A B = some (buildReport oracle A B)) := by
  constructor
  · intro e he
    refine ⟨by simp [writtenReport, he, Except.toOption], ?_⟩
    cases h1 : isSubModuleE oracleE A B with
    | error e1 =>
        have he1 : e1 = e := by
          simp only [mainE, h1] at he
          injection he
        obtain ⟨a, ha, b, hb, hq⟩ :=
          isSubModuleE_error oracleE A B e (he1 ▸ h1)
        exact ⟨a, b, Or.inl ⟨ha, hb⟩, hq⟩
    | ok rA =>
        cases h2 : isSubModuleE oracleE B A with
        | error e2 =>
            have he2 : e2 = e := by
              simp only [mainE, h1, h2] at he
              injection he
            obtain ⟨b, hb, a, ha, hq⟩ :=
              isSubModuleE_error oracleE B A e (he2 ▸ h2)
            exact ⟨b, a, Or.inr ⟨hb, ha⟩, hq⟩
        | ok rB => simp [mainE, h1, h2] at he
  · intro oracle hag
    simp [writtenReport, mainE_ok oracleE oracle hag, Except.toOption]

/-- Witness for C8: an oracle that raises on every query makes the run abort,
and the theorem locates a failing query among the modules' export pairs. -/
theorem oracleFailureAllOrNothing_concrete :
    ∃ s t : Export Nat,
      ((s ∈ [Export.mk "x" 0] ∧ t ∈ [Export.mk "y" 1]) ∨
        (s ∈ [Export.mk "y" 1] ∧ t ∈ [Export.mk "x" 0])) ∧
      (fun _ _ : Nat => (Except.error 7 : Except Nat Bool)) s.ty t.ty =
        Except.error 7 :=
  ((oracleFailureAllOrNothing (fun _ _ : Nat => (Except.error 7 : Except Nat Bool))
      [Export.mk "x" 0] [Export.mk "y" 1]).1 7 rfl).2

/-- C9: the fraction returned by the FIRST-policy engine always lies between
0 and 1. -/
theorem fractionBounds (oracle : Ty → Ty → Bool)
    (source target : List (Export Ty)) :
    0 ≤ (isSubModule oracle source target).subTypeFraction ∧
    (isSubModule oracle source target).subTypeFraction ≤ 1 := by
  have hle := num_subs_le_length oracle source target
  rw [subTypeFraction_eq]
  by_cases hpos : 0 < target.length
  · rw [if_pos hpos]
    have h0 : (0 : ℚ) < (target.length : ℚ) := by exact_mod_cast hpos
    constructor
    · positivity
    · rw [div_le_one h0]
      exact_mod_cast hle
  · rw [if_neg hpos]
    norm_num

/-- C10: under the FIRST policy with unique target export names, isSubModule
holds exactly when subTypeFraction is 1, and the matched count is the number
of target exports whose witness entry in the returned map is non-null. -/
theorem firstPolicyInvariants (oracle : Ty → Ty → Bool)
    (source target : List (Export Ty))
    (hnd : (target.map Export.name).Nodup) :
    ((isSubModule oracle source target).isSubModule = true ↔
      (isSubModule oracle source target).subTypeFraction = 1) ∧
    num_subs oracle source target =
      ((isSubModule oracle source target).subTypes.filter
        (fun p => p.2.isSome)).length := by
  have hle := num_subs_le_length oracle source target
  constructor
  · show ((num_subs oracle source target == target.length) = true ↔ _)
    rw [beq_iff_eq, subTypeFraction_eq]
    by_cases hpos : 0 < target.length
    · rw [if_pos hpos]
      have h0 : ((target.length : ℚ)) ≠ 0 := by
        exact_mod_cast Nat.pos_iff_ne_zero.mp hpos
      constructor
      · intro h
        rw [h]
        exact div_self h0
      · intro h
        exact_mod_cast (div_eq_one_iff_eq h0).mp h
    · rw [if_neg hpos]
      have hzero : target.length = 0 := Nat.eq_zero_of_not_pos hpos
      have hnum : num_subs oracle source target = 0 :=
        Nat.le_zero.mp (hzero ▸ hle)
      simp [hnum, hzero]
  · have hsubs : (isSubModule oracle source target).subTypes =
        target.map (fun b => (b.name, findWitness oracle source b.ty)) := by
      show (subLoop oracle source target [] 0).1 = _
      rw [subLoop_fst oracle source target [] 0 hnd (by simp)]
      simp
    show (subLoop oracle source target [] 0).2 = _
    rw [subLoop_snd, hsubs, List.filter_map, List.length_map]
    simp only [Nat.zero_add]
    congr 1

/-- Witness for C10 at source {f}, target {f, g} and the equality oracle:
the matched count 1 equals the number of non-null entries, and the 1/2
fraction correctly witnesses a non-submodule. -/
theorem firstPolicyInvariants_concrete :
    ((isSubModule (fun a b : Nat => a == b)
        [Export.mk "f" 0] [Export.mk "f" 0, Export.mk "g" 1]).isSubModule = true ↔
      (isSubModule (fun a b : Nat => a == b)
        [Export.mk "f" 0] [Export.mk "f" 0, Export.mk "g" 1]).subTypeFraction = 1) ∧
    num_subs (fun a b : Nat => a == b)
        [Export.mk "f" 0] [Export.mk "f" 0, Export.mk "g" 1] =
      ((isSubModule (fun a b : Nat => a == b)
          [Export.mk "f" 0] [Export.mk "f" 0, Export.mk "g" 1]).subTypes.filter
        (fun p => p.2.isSome)).length :=
  firstPolicyInvariants (fun a b : Nat => a == b)
    [Export.mk "f" 0] [Export.mk "f" 0, Export.mk "g" 1] (by decide)

end DTSGen
